import Mathlib

/-!
Verification of the `amp` key-map module (`src/input/key_map/mod.rs`).

The module turns a YAML-like document of mode/key-binding configuration into a
nested lookup structure (`KeyMap`), supports wildcard-fallback lookup
(`command_for`), destructive merge of a second table into a first (`merge`),
and a textual key-token parser (`parse_key`).

Rust `HashMap`s are embedded as association lists with a replace-on-insert
operation (`insertA`); the `HashMap` uniqueness invariant appears in theorems
as a `Nodup` hypothesis on the key column where it matters.  Rust strings are
embedded as Lean `String` (a wrapper around `List Char`); `str.split("-")` is
embedded by `splitDash` on the character list, which agrees with Rust's
semantics for a one-character separator (empty components included).
Commands are opaque copyable handles, so the development is parametric in the
command type `C`.
-/

namespace AmpKeyMap

/-- The `Key` type from `input::Key` (the excerpt's key-event representation):
a plain character, a control-modified character, the any-character wildcard,
and the named special keys used by the key-token parser. -/
inductive Key where
  | Char (c : Char)
  | Ctrl (c : Char)
  | AnyChar
  | Backspace
  | Left
  | Right
  | Up
  | Down
  | Home
  | End
  | PageUp
  | PageDown
  | Delete
  | Insert
  | Esc
  | Tab
  | Enter
deriving DecidableEq

/-- Association-list lookup: the embedding of `HashMap::get`. -/
def lookupA {α β : Type} [DecidableEq α] : List (α × β) → α → Option β
  | [], _ => none
  | (k, v) :: rest, a => if a = k then some v else lookupA rest a

/-- Association-list insert with replacement: the embedding of
`HashMap::insert` (last write wins, other entries untouched). -/
def insertA {α β : Type} [DecidableEq α] (k : α) (v : β) : List (α × β) → List (α × β)
  | [] => [(k, v)]
  | (k', v') :: rest => if k = k' then (k, v) :: rest else (k', v') :: insertA k v rest

/-- Association-list update of the value stored at key `k`, doing nothing when
`k` is absent: the embedding of `HashMap::get_mut` followed by mutation. -/
def updateA {α β : Type} [DecidableEq α] (k : α) (f : β → β) : List (α × β) → List (α × β)
  | [] => []
  | (k', v') :: rest => if k = k' then (k', f v') :: rest else (k', v') :: updateA k f rest

/-- Embedding of Rust `data.split("-")` on the character list of the token:
the components between the `-` separators, in order, empty components
included.  Always yields at least one component. -/
def splitDash : List Char → List (List Char)
  | [] => [[]]
  | c :: rest =>
    match splitDash rest with
    | [] => [[]]
    | cur :: parts =>
      if c = '-' then [] :: cur :: parts else (c :: cur) :: parts

/-- Error text `format!("Keymap key \"{}\" is invalid", key)`. -/
def invalidKeyMsg (key : String) : String :=
  "Keymap key \"" ++ key ++ "\" is invalid"

/-- Error text `format!("Keymap modifier \"{}\" is invalid", component)`. -/
def invalidModifierMsg (component : String) : String :=
  "Keymap modifier \"" ++ component ++ "\" is invalid"

/-- Embedding of `parse_key`: parses a str-based key token into its `Key`
equivalent.  The token is split on `-`; only the first two components are
consumed (`key_components.next()` twice), so components after the second are
ignored.  With a second component present, the suffix's first character is
taken (empty suffix is an error) and the prefix must be `ctrl`; without one,
the whole token is matched against the keyword table, falling back to the
token's first character. -/
def parse_key (data : String) : Except String Key :=
  match splitDash data.data with
  | [] => Except.error "A keymap key is an empty string"
  | component :: rest =>
    match rest with
    | key :: _ =>
      match key with
      | [] => Except.error (invalidKeyMsg (String.mk key))
      | key_char :: _ =>
        if String.mk component = "ctrl" then Except.ok (Key.Ctrl key_char)
        else Except.error (invalidModifierMsg (String.mk component))
    | [] =>
      if String.mk component = "space" then Except.ok (Key.Char ' ')
      else if String.mk component = "backspace" then Except.ok Key.Backspace
      else if String.mk component = "left" then Except.ok Key.Left
      else if String.mk component = "right" then Except.ok Key.Right
      else if String.mk component = "up" then Except.ok Key.Up
      else if String.mk component = "down" then Except.ok Key.Down
      else if String.mk component = "home" then Except.ok Key.Home
      else if String.mk component = "end" then Except.ok Key.End
      else if String.mk component = "page_up" then Except.ok Key.PageUp
      else if String.mk component = "page_down" then Except.ok Key.PageDown
      else if String.mk component = "delete" then Except.ok Key.Delete
      else if String.mk component = "insert" then Except.ok Key.Insert
      else if String.mk component = "escape" then Except.ok Key.Esc
      else if String.mk component = "tab" then Except.ok Key.Tab
      else if String.mk component = "enter" then Except.ok Key.Enter
      else if String.mk component = "_" then Except.ok Key.AnyChar
      else
        match component with
        | [] => Except.error (invalidKeyMsg (String.mk component))
        | c :: _ => Except.ok (Key.Char c)

/-- The keyword tokens of `parse_key`'s fixed table. -/
def keywords : List String :=
  ["space", "backspace", "left", "right", "up", "down", "home", "end",
   "page_up", "page_down", "delete", "insert", "escape", "tab", "enter", "_"]

/-- The binding table: a mapping from mode name to a mapping from key event to
command reference (`KeyMap(HashMap<String, HashMap<Key, Command>>)`),
parametric in the opaque command type `C`. -/
abbrev KeyMap (C : Type) : Type := List (String × List (Key × C))

/-- Embedding of `KeyMap::command_for`: searches the keymap for the specified
key; character keys fall back to the wildcard character binding when the
specific character binding cannot be found. -/
def command_for {C : Type} (keymap : KeyMap C) (mode : String) (key : Key) : Option C :=
  (lookupA keymap mode).bind fun mode_keymap =>
    match key with
    | Key.Char _ =>
      match lookupA mode_keymap key with
      | some command => some command
      | none => lookupA mode_keymap Key.AnyChar
    | _ => lookupA mode_keymap key

/-- One mode's step of `KeyMap::merge`: drain the other table's bindings for a
mode into the receiver's binding map for that mode, inserting each pair. -/
def mergeBindings {C : Type} : List (Key × C) → List (Key × C) → List (Key × C)
  | key_bindings, [] => key_bindings
  | key_bindings, (key, command) :: rest => mergeBindings (insertA key command key_bindings) rest

/-- Embedding of `KeyMap::merge`: steps through the other key map's modes and,
when the receiver already has the mode, inserts each of the other's bindings
into the receiver's map for that mode; modes absent from the receiver are
discarded. -/
def merge {C : Type} : KeyMap C → KeyMap C → KeyMap C
  | keymap, [] => keymap
  | keymap, (mode, other_key_bindings) :: rest =>
    merge (updateA mode (fun key_bindings => mergeBindings key_bindings other_key_bindings) keymap) rest

/-- The document tree (`yaml_rust::Yaml`) restricted to the capabilities the
key map uses: `as_str` (string nodes) and `as_hash` (mapping nodes, an ordered
association list of node pairs); every other node shape is `other`. -/
inductive Yaml where
  | str (s : String)
  | hash (entries : List (Yaml × Yaml))
  | other

/-- Embedding of `Yaml::as_str`. -/
def Yaml.as_str : Yaml → Option String
  | Yaml.str s => some s
  | _ => none

/-- Embedding of `Yaml::as_hash`. -/
def Yaml.as_hash : Yaml → Option (List (Yaml × Yaml))
  | Yaml.hash entries => some entries
  | _ => none

/-- The loop body of `parse_mode_key_bindings`: walks the (key-token,
command-name) pairs of one mode's hash, accumulating the binding map; stops at
the first failure (unreadable key or command string, malformed key token, or a
command name missing from the registry). -/
def parseBindings {C : Type} (commands : List (String × C)) :
    List (Yaml × Yaml) → List (Key × C) → Except String (List (Key × C))
  | [], key_bindings => Except.ok key_bindings
  | (yaml_key, yaml_command) :: rest, key_bindings =>
    match yaml_key.as_str with
    | none => Except.error "A keymap key couldn't be parsed as a string"
    | some key_str =>
      match parse_key key_str with
      | Except.error e => Except.error e
      | Except.ok key =>
        match yaml_command.as_str with
        | none => Except.error "A keymap command couldn't be parsed as a string"
        | some command_string =>
          match lookupA commands command_string with
          | none =>
            Except.error ("Keymap command \"" ++ command_string ++ "\" doesn't exist")
          | some command =>
            parseBindings commands rest (insertA key command key_bindings)

/-- Embedding of `parse_mode_key_bindings`: parses the key bindings for one
mode from its document node, which must be a hash. -/
def parse_mode_key_bindings {C : Type} (commands : List (String × C)) (mode : Yaml) :
    Except String (List (Key × C)) :=
  match mode.as_hash with
  | none => Except.error "Keymap mode config didn't return a hash of key bindings"
  | some entries => parseBindings commands entries []

/-- The loop body of `KeyMap::from`: walks the (mode, bindings) pairs of the
top-level hash, parsing each mode's bindings and inserting them under the mode
name; stops at the first failure. -/
def buildModes {C : Type} (commands : List (String × C)) :
    List (Yaml × Yaml) → KeyMap C → Except String (KeyMap C)
  | [], keymap => Except.ok keymap
  | (yaml_mode, yaml_key_bindings) :: rest, keymap =>
    match yaml_mode.as_str with
    | none => Except.error "A mode key couldn't be parsed as a string"
    | some mode =>
      match parse_mode_key_bindings commands yaml_key_bindings with
      | Except.error e => Except.error ("Failed to parse keymaps for mode: " ++ e)
      | Except.ok key_bindings => buildModes commands rest (insertA mode key_bindings keymap)

/-- Embedding of `KeyMap::from`: parses a document tree of modes and their
keybindings into a complete keymap, resolving command names through the
registry `commands`.  Either a fully populated table or the first error. -/
def fromYaml {C : Type} (commands : List (String × C)) (keymap_data : Yaml) :
    Except String (KeyMap C) :=
  match keymap_data.as_hash with
  | none => Except.error "Keymap config didn't return a hash of modes"
  | some modes => buildModes commands modes []

/-- Modelled from the spec: the command registry (`commands::hash_map()` is
outside the excerpt).  Command references are opaque comparable tags, so the
registry maps each command name the development needs to a string tag equal to
the name; the spec only requires that `cursor::move_up` resolves to the
move-cursor-up command. -/
def commands_hash_map : List (String × String) :=
  [("cursor::move_up", "cursor::move_up")]

/-- Modelled from the spec: the embedded default configuration document
(`default.yml`, absent from the excerpt) after loading by the document-tree
provider.  Per the spec it always parses and contains at least a binding for
mode `normal`, key `k`, resolving to the move-cursor-up command. -/
def default_keymap_data : Yaml :=
  Yaml.hash [(Yaml.str "normal", Yaml.hash [(Yaml.str "k", Yaml.str "cursor::move_up")])]

/-- Embedding of `KeyMap::default`: parses the embedded default configuration
with the ordinary construction path. -/
def defaultKeyMap : Except String (KeyMap String) :=
  fromYaml commands_hash_map default_keymap_data

/-- Splitting a token on the FIRST `-` only: the reading of `parse_key` that
claim C3 and §4.1 of the spec describe.  Yields the prefix and, when a `-` is
present, the whole remainder after that first `-` as the suffix. -/
def splitFirstDash : List Char → List Char × Option (List Char)
  | [] => ([], none)
  | c :: rest =>
    if c = '-' then ([], some rest)
    else
      match splitFirstDash rest with
      | (p, s) => (c :: p, s)

/-- The modifier rule exactly as the claim words it, for tokens containing a
`-`: split on the first `-` into prefix and suffix; `ctrl` with a non-empty
suffix yields the control-modified form of the suffix's first character, an
empty suffix is an invalid-key error, and any other prefix is an
invalid-modifier error.  Returns `none` on tokens without a `-`, which the
claim does not cover. -/
def claim_modifier_result (data : String) : Option (Except String Key) :=
  match splitFirstDash data.data with
  | (_, none) => none
  | (comp, some suffix) =>
    some (match suffix with
      | [] => Except.error (invalidKeyMsg "")
      | c :: _ =>
        if String.mk comp = "ctrl" then Except.ok (Key.Ctrl c)
        else Except.error (invalidModifierMsg (String.mk comp)))

theorem lookupA_insertA_self {α β : Type} [DecidableEq α] (k : α) (v : β) (m : List (α × β)) :
    lookupA (insertA k v m) k = some v := by
  induction m with
  | nil => simp [insertA, lookupA]
  | cons p rest ih =>
    obtain ⟨k', v'⟩ := p
    by_cases h : k = k'
    · simp [insertA, h, lookupA]
    · simp [insertA, h, lookupA, ih, Ne.symm h]

theorem lookupA_insertA_ne {α β : Type} [DecidableEq α] (k a : α) (v : β) (m : List (α × β))
    (hne : a ≠ k) : lookupA (insertA k v m) a = lookupA m a := by
  induction m with
  | nil => simp [insertA, lookupA, hne]
  | cons p rest ih =>
    obtain ⟨k', v'⟩ := p
    by_cases h : k = k'
    · subst h
      simp [insertA, lookupA, hne]
    · by_cases h2 : a = k'
      · simp [insertA, h, lookupA, h2]
      · simp [insertA, h, lookupA, h2, ih]

theorem lookupA_eq_none_iff {α β : Type} [DecidableEq α] (m : List (α × β)) (a : α) :
    lookupA m a = none ↔ a ∉ m.map Prod.fst := by
  induction m with
  | nil => simp [lookupA]
  | cons p rest ih =>
    obtain ⟨k', v'⟩ := p
    by_cases h : a = k'
    · simp [lookupA, h]
    · simp [lookupA, h, ih]

theorem map_fst_updateA {α β : Type} [DecidableEq α] (k : α) (f : β → β) (m : List (α × β)) :
    (updateA k f m).map Prod.fst = m.map Prod.fst := by
  induction m with
  | nil => simp [updateA]
  | cons p rest ih =>
    obtain ⟨k', v'⟩ := p
    by_cases h : k = k'
    · simp [updateA, h]
    · simp [updateA, h, ih]

theorem lookupA_updateA_self {α β : Type} [DecidableEq α] (k : α) (f : β → β) (m : List (α × β)) :
    lookupA (updateA k f m) k = (lookupA m k).map f := by
  induction m with
  | nil => simp [updateA, lookupA]
  | cons p rest ih =>
    obtain ⟨k', v'⟩ := p
    by_cases h : k = k'
    · simp [updateA, h, lookupA]
    · simp [updateA, h, lookupA, ih]

theorem lookupA_updateA_ne {α β : Type} [DecidableEq α] (k a : α) (f : β → β) (m : List (α × β))
    (hne : a ≠ k) : lookupA (updateA k f m) a = lookupA m a := by
  induction m with
  | nil => simp [updateA]
  | cons p rest ih =>
    obtain ⟨k', v'⟩ := p
    by_cases h : k = k'
    · subst h
      simp [updateA, lookupA, hne]
    · by_cases h2 : a = k'
      · simp [updateA, h, lookupA, h2]
      · simp [updateA, h, lookupA, h2, ih]

theorem splitDash_ne_nil (l : List Char) : splitDash l ≠ [] := by
  cases l with
  | nil => simp [splitDash]
  | cons c rest =>
    simp only [splitDash]
    cases h : splitDash rest with
    | nil => simp
    | cons cur parts => by_cases hc : c = '-' <;> simp [hc]

theorem splitDash_no_dash (l : List Char) (h : '-' ∉ l) : splitDash l = [l] := by
  induction l with
  | nil => simp [splitDash]
  | cons c rest ih =>
    simp only [List.mem_cons, not_or] at h
    obtain ⟨hc, hrest⟩ := h
    simp [splitDash, ih hrest, Ne.symm hc]

theorem lookupA_mergeBindings_none {C : Type} (kb ob : List (Key × C)) (k : Key)
    (h : lookupA ob k = none) : lookupA (mergeBindings kb ob) k = lookupA kb k := by
  induction ob generalizing kb with
  | nil => simp [mergeBindings]
  | cons p rest ih =>
    obtain ⟨k0, v0⟩ := p
    by_cases hk : k = k0
    · simp [lookupA, hk] at h
    · simp only [lookupA, if_neg hk] at h
      simp only [mergeBindings]
      rw [ih (insertA k0 v0 kb) h, lookupA_insertA_ne k0 k v0 kb hk]

theorem lookupA_mergeBindings_some {C : Type} (kb ob : List (Key × C))
    (hnd : (ob.map Prod.fst).Nodup) (k : Key) (v : C) (h : lookupA ob k = some v) :
    lookupA (mergeBindings kb ob) k = some v := by
  induction ob generalizing kb with
  | nil => simp [lookupA] at h
  | cons p rest ih =>
    obtain ⟨k0, v0⟩ := p
    simp only [List.map_cons, List.nodup_cons] at hnd
    obtain ⟨hk0, hrest⟩ := hnd
    by_cases hk : k = k0
    · subst hk
      simp [lookupA] at h
      subst h
      have hnone : lookupA rest k = none := (lookupA_eq_none_iff rest k).mpr hk0
      simp only [mergeBindings]
      rw [lookupA_mergeBindings_none (insertA k v0 kb) rest k hnone,
        lookupA_insertA_self k v0 kb]
    · simp only [lookupA, if_neg hk] at h
      simp only [mergeBindings]
      exact ih (insertA k0 v0 kb) hrest h

theorem map_fst_merge {C : Type} (keymap other : KeyMap C) :
    (merge keymap other).map Prod.fst = keymap.map Prod.fst := by
  induction other generalizing keymap with
  | nil => simp [merge]
  | cons p rest ih =>
    obtain ⟨m0, ob0⟩ := p
    simp only [merge]
    rw [ih, map_fst_updateA]

theorem lookupA_merge_none {C : Type} (keymap other : KeyMap C) (mode : String)
    (h : lookupA other mode = none) :
    lookupA (merge keymap other) mode = lookupA keymap mode := by
  induction other generalizing keymap with
  | nil => simp [merge]
  | cons p rest ih =>
    obtain ⟨m0, ob0⟩ := p
    by_cases hm : mode = m0
    · simp [lookupA, hm] at h
    · simp only [lookupA, if_neg hm] at h
      simp only [merge]
      rw [ih _ h, lookupA_updateA_ne m0 mode _ keymap hm]

theorem lookupA_merge_some {C : Type} (keymap other : KeyMap C) (mode : String)
    (ob : List (Key × C)) (hnd : (other.map Prod.fst).Nodup)
    (h : lookupA other mode = some ob) :
    lookupA (merge keymap other) mode =
      (lookupA keymap mode).map fun kb => mergeBindings kb ob := by
  induction other generalizing keymap with
  | nil => simp [lookupA] at h
  | cons p rest ih =>
    obtain ⟨m0, ob0⟩ := p
    simp only [List.map_cons, List.nodup_cons] at hnd
    obtain ⟨hm0, hrest⟩ := hnd
    by_cases hm : mode = m0
    · subst hm
      simp [lookupA] at h
      subst h
      have hnone : lookupA rest mode = none := (lookupA_eq_none_iff rest mode).mpr hm0
      simp only [merge]
      rw [lookupA_merge_none _ rest mode hnone, lookupA_updateA_self mode _ keymap]
    · simp only [lookupA, if_neg hm] at h
      simp only [merge]
      rw [ih _ hrest h, lookupA_updateA_ne m0 mode _ keymap hm]

/-- C1: for a plain-character key, `command_for` returns the exact binding for
that character when one exists (exact match takes priority over wildcard) and
otherwise the mode's any-character wildcard binding, if any; for
control-modified and named special keys no wildcard fallback happens, so the
result is exactly the mode map's entry for the key. -/
theorem command_for_char_fallback {C : Type} (keymap : KeyMap C) (mode : String)
    (mode_keymap : List (Key × C)) (h : lookupA keymap mode = some mode_keymap) :
    (∀ c command, lookupA mode_keymap (Key.Char c) = some command →
      command_for keymap mode (Key.Char c) = some command) ∧
    (∀ c, lookupA mode_keymap (Key.Char c) = none →
      command_for keymap mode (Key.Char c) = lookupA mode_keymap Key.AnyChar) ∧
    (∀ key, (∀ c, key ≠ Key.Char c) →
      command_for keymap mode key = lookupA mode_keymap key) := by
  refine ⟨?_, ?_, ?_⟩
  · intro c command hc
    simp [command_for, h, hc]
  · intro c hc
    simp [command_for, h, hc]
  · intro key hkey
    cases key with
    | Char c => exact absurd rfl (hkey c)
    | _ => simp [command_for, h]

/-- C1 witness: a concrete mode map binding `j` and the wildcard shows the
exact binding winning for `j`, the wildcard answering other characters, and a
control key reading only its exact entry. -/
theorem command_for_char_fallback_witness :
    lookupA [("normal", [(Key.Char 'j', 0), (Key.AnyChar, 1)])] "normal" =
      some [(Key.Char 'j', 0), (Key.AnyChar, 1)] ∧
    ((∀ c command,
        lookupA [(Key.Char 'j', 0), (Key.AnyChar, 1)] (Key.Char c) = some command →
        command_for [("normal", [(Key.Char 'j', 0), (Key.AnyChar, 1)])] "normal" (Key.Char c) =
          some command) ∧
      (∀ c, lookupA [(Key.Char 'j', 0), (Key.AnyChar, 1)] (Key.Char c) = none →
        command_for [("normal", [(Key.Char 'j', 0), (Key.AnyChar, 1)])] "normal" (Key.Char c) =
          lookupA [(Key.Char 'j', 0), (Key.AnyChar, 1)] Key.AnyChar) ∧
      (∀ key, (∀ c, key ≠ Key.Char c) →
        command_for [("normal", [(Key.Char 'j', 0), (Key.AnyChar, 1)])] "normal" key =
          lookupA [(Key.Char 'j', 0), (Key.AnyChar, 1)] key)) :=
  ⟨rfl, command_for_char_fallback [("normal", [(Key.Char 'j', 0), (Key.AnyChar, 1)])]
    "normal" [(Key.Char 'j', 0), (Key.AnyChar, 1)] rfl⟩

/-- C7: lookup is total and never errors; an unknown mode yields `none`, a
known mode with no binding for the key (and, for character keys, no wildcard
binding either) yields `none`, and any returned command really is the mode's
binding for the key or its wildcard binding. -/
theorem command_for_total {C : Type} (keymap : KeyMap C) (mode : String) (key : Key) :
    (lookupA keymap mode = none → command_for keymap mode key = none) ∧
    (∀ mode_keymap, lookupA keymap mode = some mode_keymap →
      lookupA mode_keymap key = none → lookupA mode_keymap Key.AnyChar = none →
      command_for keymap mode key = none) ∧
    (∀ command, command_for keymap mode key = some command →
      ∃ mode_keymap, lookupA keymap mode = some mode_keymap ∧
        (lookupA mode_keymap key = some command ∨
          lookupA mode_keymap Key.AnyChar = some command)) := by
  refine ⟨?_, ?_, ?_⟩
  · intro h
    simp [command_for, h]
  · intro mode_keymap h hk ha
    cases key <;> simp [command_for, h, hk, ha]
  · intro command h
    cases hm : lookupA keymap mode with
    | none => simp [command_for, hm] at h
    | some mode_keymap =>
      refine ⟨mode_keymap, rfl, ?_⟩
      cases key with
      | Char c =>
        simp only [command_for, hm, Option.some_bind] at h
        cases hl : lookupA mode_keymap (Key.Char c) with
        | none =>
          simp only [hl] at h
          exact Or.inr h
        | some v =>
          simp only [hl] at h
          exact Or.inl h
      | _ =>
        simp only [command_for, hm, Option.some_bind] at h
        exact Or.inl h

/-- C7 witness: on the empty table every lookup is empty; on a one-mode table
an unbound key is empty, and the bound answer is traced back to its binding. -/
theorem command_for_total_witness :
    (lookupA ([] : KeyMap Nat) "normal" = none →
      command_for ([] : KeyMap Nat) "normal" (Key.Char 'x') = none) ∧
    (∀ mode_keymap, lookupA ([] : KeyMap Nat) "normal" = some mode_keymap →
      lookupA mode_keymap (Key.Char 'x') = none → lookupA mode_keymap Key.AnyChar = none →
      command_for ([] : KeyMap Nat) "normal" (Key.Char 'x') = none) ∧
    (∀ command, command_for ([] : KeyMap Nat) "normal" (Key.Char 'x') = some command →
      ∃ mode_keymap, lookupA ([] : KeyMap Nat) "normal" = some mode_keymap ∧
        (lookupA mode_keymap (Key.Char 'x') = some command ∨
          lookupA mode_keymap Key.AnyChar = some command)) :=
  command_for_total ([] : KeyMap Nat) "normal" (Key.Char 'x')

/-- C9: querying the wildcard key itself is an ordinary exact lookup: the
wildcard binding is returned when present, the result is empty when the mode
lacks a wildcard binding or is unknown, and no fallback step is taken. -/
theorem command_for_anychar_exact {C : Type} (keymap : KeyMap C) (mode : String) :
    (∀ mode_keymap command, lookupA keymap mode = some mode_keymap →
      lookupA mode_keymap Key.AnyChar = some command →
      command_for keymap mode Key.AnyChar = some command) ∧
    (∀ mode_keymap, lookupA keymap mode = some mode_keymap →
      lookupA mode_keymap Key.AnyChar = none →
      command_for keymap mode Key.AnyChar = none) ∧
    (lookupA keymap mode = none → command_for keymap mode Key.AnyChar = none) := by
  refine ⟨?_, ?_, ?_⟩
  · intro mode_keymap command h ha
    simp [command_for, h, ha]
  · intro mode_keymap h ha
    simp [command_for, h, ha]
  · intro h
    simp [command_for, h]

/-- C9 witness: in a table whose `normal` mode binds only the wildcard, the
wildcard query returns that binding. -/
theorem command_for_anychar_exact_witness :
    (∀ mode_keymap command,
      lookupA [("normal", [(Key.AnyChar, 7)])] "normal" = some mode_keymap →
      lookupA mode_keymap Key.AnyChar = some command →
      command_for [("normal", [(Key.AnyChar, 7)])] "normal" Key.AnyChar = some command) ∧
    (∀ mode_keymap, lookupA [("normal", [(Key.AnyChar, 7)])] "normal" = some mode_keymap →
      lookupA mode_keymap Key.AnyChar = none →
      command_for [("normal", [(Key.AnyChar, 7)])] "normal" Key.AnyChar = none) ∧
    (lookupA [("normal", [(Key.AnyChar, 7)])] "normal" = none →
      command_for [("normal", [(Key.AnyChar, 7)])] "normal" Key.AnyChar = none) :=
  command_for_anychar_exact [("normal", [(Key.AnyChar, 7)])] "normal"

/-- C2: merging another table never fails and never adds a mode (the merged
table has exactly the receiver's modes); a mode absent from the other table is
untouched; a mode absent from the receiver stays absent (the other table's
bindings for it are discarded); and for a mode present in both, every binding
of the other table overwrites the receiver's binding for the same key while
keys not bound in the other table keep the receiver's binding. -/
theorem merge_spec {C : Type} (keymap other : KeyMap C)
    (hnd : (other.map Prod.fst).Nodup) (mode : String) :
    ((merge keymap other).map Prod.fst = keymap.map Prod.fst) ∧
    (lookupA other mode = none →
      lookupA (merge keymap other) mode = lookupA keymap mode) ∧
    (lookupA keymap mode = none → lookupA (merge keymap other) mode = none) ∧
    (∀ ob kb, lookupA other mode = some ob → lookupA keymap mode = some kb →
      (ob.map Prod.fst).Nodup →
      lookupA (merge keymap other) mode = some (mergeBindings kb ob) ∧
      (∀ k v, lookupA ob k = some v → lookupA (mergeBindings kb ob) k = some v) ∧
      (∀ k, lookupA ob k = none →
        lookupA (mergeBindings kb ob) k = lookupA kb k)) := by
  refine ⟨map_fst_merge keymap other, lookupA_merge_none keymap other mode, ?_, ?_⟩
  · intro h
    rw [lookupA_eq_none_iff] at h ⊢
    rw [map_fst_merge keymap other]
    exact h
  · intro ob kb hob hkb hobnd
    refine ⟨?_, ?_, ?_⟩
    · rw [lookupA_merge_some keymap other mode ob hnd hob, hkb]
      rfl
    · intro k v hv
      exact lookupA_mergeBindings_some kb ob hobnd k v hv
    · intro k hk
      exact lookupA_mergeBindings_none kb ob k hk

/-- C2 witness: the spec's merge scenario, `normal: k, j` merged with
`normal: k, l` plus an `unknown` mode the receiver lacks; `j` is unchanged,
`k` is overwritten, `l` is added, and `unknown` is discarded. -/
theorem merge_spec_witness :
    (([("normal", [(Key.Char 'k', 2), (Key.Char 'l', 3)]),
        ("unknown", [(Key.Ctrl 'l', 4)])].map
          (Prod.fst (α := String) (β := List (Key × Nat)))).Nodup ∧
      ((merge [("normal", [(Key.Char 'k', 0), (Key.Char 'j', 1)])]
          [("normal", [(Key.Char 'k', 2), (Key.Char 'l', 3)]),
            ("unknown", [(Key.Ctrl 'l', 4)])]).map Prod.fst =
        [("normal", [(Key.Char 'k', 0), (Key.Char 'j', 1)])].map Prod.fst) ∧
      (lookupA [("normal", [(Key.Char 'k', 2), (Key.Char 'l', 3)]),
          ("unknown", [(Key.Ctrl 'l', 4)])] "normal" = none →
        lookupA (merge [("normal", [(Key.Char 'k', 0), (Key.Char 'j', 1)])]
            [("normal", [(Key.Char 'k', 2), (Key.Char 'l', 3)]),
              ("unknown", [(Key.Ctrl 'l', 4)])]) "normal" =
          lookupA [("normal", [(Key.Char 'k', 0), (Key.Char 'j', 1)])] "normal") ∧
      (lookupA [("normal", [(Key.Char 'k', 0), (Key.Char 'j', 1)])] "normal" = none →
        lookupA (merge [("normal", [(Key.Char 'k', 0), (Key.Char 'j', 1)])]
            [("normal", [(Key.Char 'k', 2), (Key.Char 'l', 3)]),
              ("unknown", [(Key.Ctrl 'l', 4)])]) "normal" = none) ∧
      (∀ ob kb,
        lookupA [("normal", [(Key.Char 'k', 2), (Key.Char 'l', 3)]),
            ("unknown", [(Key.Ctrl 'l', 4)])] "normal" = some ob →
        lookupA [("normal", [(Key.Char 'k', 0), (Key.Char 'j', 1)])] "normal" = some kb →
        (ob.map Prod.fst).Nodup →
        lookupA (merge [("normal", [(Key.Char 'k', 0), (Key.Char 'j', 1)])]
            [("normal", [(Key.Char 'k', 2), (Key.Char 'l', 3)]),
              ("unknown", [(Key.Ctrl 'l', 4)])]) "normal" = some (mergeBindings kb ob) ∧
        (∀ k v, lookupA ob k = some v → lookupA (mergeBindings kb ob) k = some v) ∧
        (∀ k, lookupA ob k = none →
          lookupA (mergeBindings kb ob) k = lookupA kb k))) ∧
    merge [("normal", [(Key.Char 'k', 0), (Key.Char 'j', 1)])]
        [("normal", [(Key.Char 'k', 2), (Key.Char 'l', 3)]),
          ("unknown", [(Key.Ctrl 'l', 4)])] =
      [("normal", [(Key.Char 'k', 2), (Key.Char 'j', 1), (Key.Char 'l', 3)])] :=
  ⟨⟨by decide, merge_spec [("normal", [(Key.Char 'k', 0), (Key.Char 'j', 1)])]
      [("normal", [(Key.Char 'k', 2), (Key.Char 'l', 3)]), ("unknown", [(Key.Ctrl 'l', 4)])]
      (by decide) "normal"⟩, rfl⟩

/-- C5: each keyword token of the fixed table parses to its named key, `space`
parses to the space character key, and `_` parses to the wildcard key. -/
theorem parse_key_keyword_table :
    parse_key "space" = Except.ok (Key.Char ' ') ∧
    parse_key "backspace" = Except.ok Key.Backspace ∧
    parse_key "left" = Except.ok Key.Left ∧
    parse_key "right" = Except.ok Key.Right ∧
    parse_key "up" = Except.ok Key.Up ∧
    parse_key "down" = Except.ok Key.Down ∧
    parse_key "home" = Except.ok Key.Home ∧
    parse_key "end" = Except.ok Key.End ∧
    parse_key "page_up" = Except.ok Key.PageUp ∧
    parse_key "page_down" = Except.ok Key.PageDown ∧
    parse_key "delete" = Except.ok Key.Delete ∧
    parse_key "insert" = Except.ok Key.Insert ∧
    parse_key "escape" = Except.ok Key.Esc ∧
    parse_key "tab" = Except.ok Key.Tab ∧
    parse_key "enter" = Except.ok Key.Enter ∧
    parse_key "_" = Except.ok Key.AnyChar :=
  ⟨rfl, rfl, rfl, rfl, rfl, rfl, rfl, rfl, rfl, rfl, rfl, rfl, rfl, rfl, rfl, rfl⟩

/-- C4: a non-empty token without `-` that equals no keyword parses to the
plain-character key of its first character; the empty token is an invalid-key
error. -/
theorem parse_key_plain_char (data : String) (c : Char) (cs : List Char)
    (hdata : data.data = c :: cs) (hnodash : '-' ∉ data.data) (hkw : data ∉ keywords) :
    parse_key data = Except.ok (Key.Char c) ∧
    parse_key "" = Except.error (invalidKeyMsg "") := by
  refine ⟨?_, rfl⟩
  have hsplit : splitDash data.data = [data.data] := splitDash_no_dash data.data hnodash
  have heta : String.mk data.data = data := rfl
  simp only [keywords, List.mem_cons, List.not_mem_nil, or_false, not_or] at hkw
  obtain ⟨h1, h2, h3, h4, h5, h6, h7, h8, h9, h10, h11, h12, h13, h14, h15, h16⟩ := hkw
  simp only [parse_key, hsplit, heta, if_neg h1, if_neg h2, if_neg h3, if_neg h4, if_neg h5,
    if_neg h6, if_neg h7, if_neg h8, if_neg h9, if_neg h10, if_neg h11, if_neg h12,
    if_neg h13, if_neg h14, if_neg h15, if_neg h16]
  rw [hdata]

/-- C4 witness: the token `q` is non-empty, dash-free and not a keyword, and
parses to `Char 'q'`. -/
theorem parse_key_plain_char_witness :
    "q".data = 'q' :: [] ∧ '-' ∉ "q".data ∧ "q" ∉ keywords ∧
    (parse_key "q" = Except.ok (Key.Char 'q') ∧
      parse_key "" = Except.error (invalidKeyMsg "")) :=
  ⟨rfl, by decide, by decide,
    parse_key_plain_char "q" 'q' [] rfl (by decide) (by decide)⟩

/-- C3 counterexample: on the token `ctrl--a` the claim's split-on-first-dash
reading predicts success with `Ctrl '-'` (prefix `ctrl`, non-empty suffix
`-a`), but `parse_key` splits on every `-`, finds an empty second component,
and fails with an invalid-key error. -/
theorem parse_key_first_dash_counterexample :
    claim_modifier_result "ctrl--a" = some (Except.ok (Key.Ctrl '-')) ∧
    parse_key "ctrl--a" = Except.error (invalidKeyMsg "") :=
  ⟨rfl, rfl⟩

/-- C3 amended: for a token containing `-`, the parser splits on every `-` and
consumes only the first two components; with prefix `ctrl` and a non-empty
second component it yields the control-modified form of that component's first
character (later components and characters are ignored), an empty second
component is an invalid-key error, and any other prefix with a non-empty
second component is an invalid-modifier error. -/
theorem parse_key_modifier_rule (data : String) (p s : List Char)
    (parts : List (List Char)) (h : splitDash data.data = p :: s :: parts) :
    (∀ c cs, s = c :: cs →
      (String.mk p = "ctrl" → parse_key data = Except.ok (Key.Ctrl c)) ∧
      (String.mk p ≠ "ctrl" →
        parse_key data = Except.error (invalidModifierMsg (String.mk p)))) ∧
    (s = [] → parse_key data = Except.error (invalidKeyMsg "")) := by
  constructor
  · intro c cs hs
    subst hs
    constructor
    · intro hp
      simp [parse_key, h, hp]
    · intro hp
      simp [parse_key, h, hp]
  · intro hs
    subst hs
    simp [parse_key, h]

/-- C3 amended witness: `ctrl-r` splits into `ctrl` and `r` and parses to the
control-modified `r` key. -/
theorem parse_key_modifier_rule_witness :
    splitDash "ctrl-r".data = "ctrl".data :: "r".data :: [] ∧
    "ctrl".data = 'c' :: 't' :: 'r' :: 'l' :: [] ∧
    String.mk "ctrl".data = "ctrl" ∧
    parse_key "ctrl-r" = Except.ok (Key.Ctrl 'r') :=
  ⟨by decide, by decide, rfl,
    (((parse_key_modifier_rule "ctrl-r" "ctrl".data "r".data [] (by decide)).1
      'r' [] rfl).1 rfl)⟩

theorem invalidKeyMsg_ne_empty_guard (t : String) :
    invalidKeyMsg t ≠ "A keymap key is an empty string" := by
  intro h
  obtain ⟨lt⟩ := t
  have h3 : some 'K' = some 'A' := by
    calc some 'K' = (invalidKeyMsg (String.mk lt)).data.head? := rfl
    _ = ("A keymap key is an empty string" : String).data.head? := by rw [h]
    _ = some 'A' := rfl
  simp at h3

theorem invalidModifierMsg_ne_empty_guard (t : String) :
    invalidModifierMsg t ≠ "A keymap key is an empty string" := by
  intro h
  obtain ⟨lt⟩ := t
  have h3 : some 'K' = some 'A' := by
    calc some 'K' = (invalidModifierMsg (String.mk lt)).data.head? := rfl
    _ = ("A keymap key is an empty string" : String).data.head? := by rw [h]
    _ = some 'A' := rfl
  simp at h3

theorem parse_key_error_shape (data : String) (e : String)
    (he : parse_key data = Except.error e) :
    (∃ t, e = invalidKeyMsg t) ∨ (∃ t, e = invalidModifierMsg t) := by
  rcases hs : splitDash data.data with _ | ⟨component, rest⟩
  · exact absurd hs (splitDash_ne_nil data.data)
  · rcases rest with _ | ⟨key, parts⟩
    · simp only [parse_key, hs] at he
      by_cases h1 : String.mk component = "space"
      · rw [if_pos h1] at he; exact Except.noConfusion he
      rw [if_neg h1] at he
      by_cases h2 : String.mk component = "backspace"
      · rw [if_pos h2] at he; exact Except.noConfusion he
      rw [if_neg h2] at he
      by_cases h3 : String.mk component = "left"
      · rw [if_pos h3] at he; exact Except.noConfusion he
      rw [if_neg h3] at he
      by_cases h4 : String.mk component = "right"
      · rw [if_pos h4] at he; exact Except.noConfusion he
      rw [if_neg h4] at he
      by_cases h5 : String.mk component = "up"
      · rw [if_pos h5] at he; exact Except.noConfusion he
      rw [if_neg h5] at he
      by_cases h6 : String.mk component = "down"
      · rw [if_pos h6] at he; exact Except.noConfusion he
      rw [if_neg h6] at he
      by_cases h7 : String.mk component = "home"
      · rw [if_pos h7] at he; exact Except.noConfusion he
      rw [if_neg h7] at he
      by_cases h8 : String.mk component = "end"
      · rw [if_pos h8] at he; exact Except.noConfusion he
      rw [if_neg h8] at he
      by_cases h9 : String.mk component = "page_up"
      · rw [if_pos h9] at he; exact Except.noConfusion he
      rw [if_neg h9] at he
      by_cases h10 : String.mk component = "page_down"
      · rw [if_pos h10] at he; exact Except.noConfusion he
      rw [if_neg h10] at he
      by_cases h11 : String.mk component = "delete"
      · rw [if_pos h11] at he; exact Except.noConfusion he
      rw [if_neg h11] at he
      by_cases h12 : String.mk component = "insert"
      · rw [if_pos h12] at he; exact Except.noConfusion he
      rw [if_neg h12] at he
      by_cases h13 : String.mk component = "escape"
      · rw [if_pos h13] at he; exact Except.noConfusion he
      rw [if_neg h13] at he
      by_cases h14 : String.mk component = "tab"
      · rw [if_pos h14] at he; exact Except.noConfusion he
      rw [if_neg h14] at he
      by_cases h15 : String.mk component = "enter"
      · rw [if_pos h15] at he; exact Except.noConfusion he
      rw [if_neg h15] at he
      by_cases h16 : String.mk component = "_"
      · rw [if_pos h16] at he; exact Except.noConfusion he
      rw [if_neg h16] at he
      rcases component with _ | ⟨c, cs⟩
      · exact Or.inl ⟨_, (Except.error.inj he).symm⟩
      · exact Except.noConfusion he
    · rcases key with _ | ⟨key_char, ks⟩
      · simp only [parse_key, hs] at he
        exact Or.inl ⟨_, (Except.error.inj he).symm⟩
      · simp only [parse_key, hs] at he
        by_cases hc : String.mk component = "ctrl"
        · rw [if_pos hc] at he; exact Except.noConfusion he
        · rw [if_neg hc] at he
          exact Or.inr ⟨_, (Except.error.inj he).symm⟩

/-- C10: the guard on the first split component is unreachable — splitting any
character sequence on `-` always yields at least one component, so no input
makes `parse_key` return the empty-string guard error; the empty token instead
fails through the invalid-key first-character fallback. -/
theorem parse_key_empty_guard_unreachable :
    (∀ l : List Char, splitDash l ≠ []) ∧
    (∀ data : String, parse_key data ≠ Except.error "A keymap key is an empty string") ∧
    parse_key "" = Except.error (invalidKeyMsg "") := by
  refine ⟨splitDash_ne_nil, ?_, rfl⟩
  intro data h
  rcases parse_key_error_shape data _ h with ⟨t, ht⟩ | ⟨t, ht⟩
  · exact invalidKeyMsg_ne_empty_guard t ht.symm
  · exact invalidModifierMsg_ne_empty_guard t ht.symm

/-- C10 witness: a concrete split is non-empty and a concrete parse avoids the
guard error. -/
theorem parse_key_empty_guard_unreachable_witness :
    splitDash "ctrl".data ≠ [] ∧
    parse_key "ctrl-r" ≠ Except.error "A keymap key is an empty string" :=
  ⟨parse_key_empty_guard_unreachable.1 "ctrl".data,
    parse_key_empty_guard_unreachable.2.1 "ctrl-r"⟩

theorem parseBindings_ok_mem {C : Type} (commands : List (String × C))
    (entries : List (Yaml × Yaml)) (acc kb : List (Key × C))
    (h : parseBindings commands entries acc = Except.ok kb)
    (yk yc : Yaml) (hmem : (yk, yc) ∈ entries) :
    ∃ ks, yk.as_str = some ks ∧ (∃ key, parse_key ks = Except.ok key) ∧
      ∃ cs, yc.as_str = some cs ∧ ∃ command, lookupA commands cs = some command := by
  induction entries generalizing acc with
  | nil => simp at hmem
  | cons p rest ih =>
    obtain ⟨yk0, yc0⟩ := p
    simp only [parseBindings] at h
    cases hk : yk0.as_str with
    | none => simp only [hk] at h; exact Except.noConfusion h
    | some ks0 =>
      simp only [hk] at h
      cases hp : parse_key ks0 with
      | error e => simp only [hp] at h; exact Except.noConfusion h
      | ok key0 =>
        simp only [hp] at h
        cases hc : yc0.as_str with
        | none => simp only [hc] at h; exact Except.noConfusion h
        | some cs0 =>
          simp only [hc] at h
          cases hl : lookupA commands cs0 with
          | none => simp only [hl] at h; exact Except.noConfusion h
          | some cmd0 =>
            simp only [hl] at h
            rcases List.mem_cons.mp hmem with heq | hmem'
            · injection heq with e1 e2
              subst e1
              subst e2
              exact ⟨ks0, hk, ⟨key0, hp⟩, cs0, hc, cmd0, hl⟩
            · exact ih _ h hmem'

theorem parse_mode_key_bindings_ok {C : Type} (commands : List (String × C)) (yb : Yaml)
    (kb : List (Key × C)) (h : parse_mode_key_bindings commands yb = Except.ok kb) :
    ∃ entries, yb.as_hash = some entries ∧
      parseBindings commands entries [] = Except.ok kb := by
  unfold parse_mode_key_bindings at h
  cases hh : yb.as_hash with
  | none => rw [hh] at h; exact Except.noConfusion h
  | some entries =>
    rw [hh] at h
    exact ⟨entries, rfl, h⟩

theorem buildModes_ok_mem {C : Type} (commands : List (String × C))
    (modes : List (Yaml × Yaml)) (acc keymap : KeyMap C)
    (h : buildModes commands modes acc = Except.ok keymap)
    (ym yb : Yaml) (hmem : (ym, yb) ∈ modes) :
    (∃ m, ym.as_str = some m) ∧
      ∃ kb, parse_mode_key_bindings commands yb = Except.ok kb := by
  induction modes generalizing acc with
  | nil => simp at hmem
  | cons p rest ih =>
    obtain ⟨ym0, yb0⟩ := p
    simp only [buildModes] at h
    cases hm : ym0.as_str with
    | none => simp only [hm] at h; exact Except.noConfusion h
    | some m0 =>
      simp only [hm] at h
      cases hb : parse_mode_key_bindings commands yb0 with
      | error e => simp only [hb] at h; exact Except.noConfusion h
      | ok kb0 =>
        simp only [hb] at h
        rcases List.mem_cons.mp hmem with heq | hmem'
        · injection heq with e1 e2
          subst e1
          subst e2
          exact ⟨⟨m0, hm⟩, kb0, hb⟩
        · exact ih _ h hmem'

/-- C6: construction either fails or yields a table from fully well-formed
input — when it succeeds, the top-level node is a hash, every mode key reads
as a string, every mode's value is a hash, every key token reads as a string
that key-token parsing accepts, and every command name reads as a string
found in the registry; when the top-level node is not a hash it fails, and a
command name absent from the registry anywhere makes the whole construction
fail rather than silently omitting that binding. -/
theorem fromYaml_spec {C : Type} (commands : List (String × C)) (keymap_data : Yaml) :
    (keymap_data.as_hash = none →
      fromYaml commands keymap_data =
        Except.error "Keymap config didn't return a hash of modes") ∧
    (∀ keymap, fromYaml commands keymap_data = Except.ok keymap →
      ∃ modes, keymap_data.as_hash = some modes ∧
        ∀ ym yb, (ym, yb) ∈ modes →
          (∃ m, ym.as_str = some m) ∧
          ∃ entries, yb.as_hash = some entries ∧
            ∀ yk yc, (yk, yc) ∈ entries →
              (∃ ks, yk.as_str = some ks ∧ ∃ key, parse_key ks = Except.ok key) ∧
              (∃ cs, yc.as_str = some cs ∧
                ∃ command, lookupA commands cs = some command)) ∧
    (∀ modes ym yb entries yk yc cs,
      keymap_data.as_hash = some modes → (ym, yb) ∈ modes →
      yb.as_hash = some entries → (yk, yc) ∈ entries →
      yc.as_str = some cs → lookupA commands cs = none →
      ∃ e, fromYaml commands keymap_data = Except.error e) := by
  have main : ∀ keymap, fromYaml commands keymap_data = Except.ok keymap →
      ∃ modes, keymap_data.as_hash = some modes ∧
        ∀ ym yb, (ym, yb) ∈ modes →
          (∃ m, ym.as_str = some m) ∧
          ∃ entries, yb.as_hash = some entries ∧
            ∀ yk yc, (yk, yc) ∈ entries →
              (∃ ks, yk.as_str = some ks ∧ ∃ key, parse_key ks = Except.ok key) ∧
              (∃ cs, yc.as_str = some cs ∧
                ∃ command, lookupA commands cs = some command) := by
    intro keymap h
    unfold fromYaml at h
    cases hh : keymap_data.as_hash with
    | none => rw [hh] at h; exact Except.noConfusion h
    | some modes =>
      rw [hh] at h
      refine ⟨modes, rfl, ?_⟩
      intro ym yb hmem
      obtain ⟨⟨m, hm⟩, kb, hkb⟩ := buildModes_ok_mem commands modes [] keymap h ym yb hmem
      obtain ⟨entries, hent, hpb⟩ := parse_mode_key_bindings_ok commands yb kb hkb
      refine ⟨⟨m, hm⟩, entries, hent, ?_⟩
      intro yk yc hmem2
      obtain ⟨ks, hks, hkey, cs, hcs, cmd, hcmd⟩ :=
        parseBindings_ok_mem commands entries [] kb hpb yk yc hmem2
      exact ⟨⟨ks, hks, hkey⟩, ⟨cs, hcs, cmd, hcmd⟩⟩
  refine ⟨?_, main, ?_⟩
  · intro h
    unfold fromYaml
    rw [h]
  · intro modes ym yb entries yk yc cs hh hmem hent hmem2 hcs hnone
    cases hfy : fromYaml commands keymap_data with
    | error e => exact ⟨e, rfl⟩
    | ok keymap =>
      obtain ⟨modes', hmodes', hforall⟩ := main keymap hfy
      rw [hh] at hmodes'
      obtain rfl : modes = modes' := Option.some.inj hmodes'
      obtain ⟨_, entries', hent', hforall2⟩ := hforall ym yb hmem
      rw [hent] at hent'
      obtain rfl : entries = entries' := Option.some.inj hent'
      obtain ⟨cs', hcs', cmd, hcmd⟩ := (hforall2 yk yc hmem2).2
      rw [hcs] at hcs'
      obtain rfl : cs = cs' := Option.some.inj hcs'
      rw [hnone] at hcmd
      exact Option.noConfusion hcmd

/-- C6 witness: a configuration whose only command name is absent from an
empty registry makes construction fail. -/
theorem fromYaml_spec_witness :
    (Yaml.hash [(Yaml.str "normal",
        Yaml.hash [(Yaml.str "k", Yaml.str "nope")])]).as_hash =
      some [(Yaml.str "normal", Yaml.hash [(Yaml.str "k", Yaml.str "nope")])] ∧
    (Yaml.str "k", Yaml.str "nope") ∈ [(Yaml.str "k", Yaml.str "nope")] ∧
    (Yaml.str "nope").as_str = some "nope" ∧
    lookupA ([] : List (String × Nat)) "nope" = none ∧
    ∃ e, fromYaml ([] : List (String × Nat))
        (Yaml.hash [(Yaml.str "normal", Yaml.hash [(Yaml.str "k", Yaml.str "nope")])]) =
      Except.error e :=
  ⟨rfl, List.mem_cons_self _ _, rfl, rfl,
    (fromYaml_spec ([] : List (String × Nat))
        (Yaml.hash [(Yaml.str "normal", Yaml.hash [(Yaml.str "k", Yaml.str "nope")])])).2.2
      [(Yaml.str "normal", Yaml.hash [(Yaml.str "k", Yaml.str "nope")])]
      (Yaml.str "normal") (Yaml.hash [(Yaml.str "k", Yaml.str "nope")])
      [(Yaml.str "k", Yaml.str "nope")] (Yaml.str "k") (Yaml.str "nope") "nope"
      rfl (List.mem_cons_self _ _) rfl (List.mem_cons_self _ _) rfl rfl⟩

/-- C8: the embedded default configuration parses successfully and binds mode
`normal`, key `Char 'k'`, to the move-cursor-up command. -/
theorem default_keymap_spec :
    ∃ keymap, defaultKeyMap = Except.ok keymap ∧
      command_for keymap "normal" (Key.Char 'k') = some "cursor::move_up" :=
  ⟨[("normal", [(Key.Char 'k', "cursor::move_up")])], rfl, rfl⟩

end AmpKeyMap
